import Mathlib

/-!
Verification of the lightshow capture/compositing/extraction pipeline.

Shallow embedding of the Rust sources:
  src/screen_capture.rs  (calculate_avg_colors, combine_screens)
  src/config.rs          (LED, convert_leds_to_array)
  src/hardware_interaction.rs (get_monitor_info)
  src/backend.rs, src/main.rs (process_frames_setup_map: sort + dispatch,
                               startup monitor handling)

Modelling conventions:
* Rust `u8` image channel bytes are `Nat` values (stored bytes are < 256 in
  the real program; where a claim depends on that, it is a hypothesis).
* The `u32` running sums and counter in `calculate_avg_colors` wrap on
  overflow (release-build semantics); this is modelled by `u32wrap`
  (reduction mod 2 ^ 32) applied at each accumulation step, and likewise for
  the `u32` index arithmetic of `combine_screens`.
* `i32` coordinate arithmetic is modelled on unbounded `Int`; the claims
  under scrutiny (and all witnesses and counterexamples) live far inside the
  `i32` range, where the two agree.
* Fallible operations (a `get_pixel` panic, an out-of-bounds raw copy) are
  modelled with `Option`: `none` means the Rust program panics or commits an
  out-of-bounds memory access at that point.
* `image::RgbaImage` is a width, a height and a pixel function;
  `get_pixel x y` panics (returns `none`) outside the image, exactly as the
  `image` crate asserts `x < width && y < height`.
-/

/-- One RGBA pixel, four channel bytes. -/
structure Pixel where
  r : Nat
  g : Nat
  b : Nat
  a : Nat
deriving DecidableEq

/-- Model of `image::RgbaImage`: dimensions plus pixel contents. -/
structure RgbaImage where
  width : Nat
  height : Nat
  pix : Nat → Nat → Pixel

/-- `ImageBuffer::get_pixel` asserts `x < width && y < height` and panics
otherwise; the panic is `none`. -/
def RgbaImage.get_pixel (img : RgbaImage) (x y : Nat) : Option Pixel :=
  if x < img.width ∧ y < img.height then some (img.pix x y) else none

/-- `config::Position` (i32 fields). -/
structure Position where
  x : Int
  y : Int
deriving DecidableEq

/-- `config::Size` (i32 fields). -/
structure Size where
  width : Int
  height : Int
deriving DecidableEq

/-- `config::LED`.  The three `f32` coefficient fields are only ever compared
against the exactly representable constant `1.0`, so they are modelled as
rationals, on which that comparison is exact. -/
structure LED where
  index : Int
  IsEnabled : Bool
  Pos : Position
  Sz : Size
  CoefRed : Rat
  CoefGreen : Rat
  CoefBlue : Rat
deriving DecidableEq

/-- `screen_capture::Color`: an LED index and three `u8` channels. -/
structure Color where
  led_index : Int
  r : Nat
  g : Nat
  b : Nat
deriving DecidableEq

/-- Reduction mod 2 ^ 32: the wrap of Rust release-mode `u32` arithmetic. -/
def u32wrap (n : Nat) : Nat := n % 4294967296

/-- Reinterpretation of an `i32` value as `u32` (Rust `as u32`). -/
def u32cast (x : Int) : Nat := (x % 4294967296).toNat

/-- The running accumulator of one LED zone scan in `calculate_avg_colors`:
three `u32` channel sums and the `u32` pixel count. -/
structure ScanAcc where
  r_sum : Nat
  g_sum : Nat
  b_sum : Nat
  count : Nat
deriving DecidableEq

/-- The translated canvas coordinates visited by the nested
`for x in 0..size.0 { for y in 0..size.1 { ... } }` loops of
`calculate_avg_colors`, in loop order: `x` outer, `y` inner, each coordinate
`(position + offset - min)`.  An `i32` range `0..n` is empty for `n <= 0`,
hence `Int.toNat`. -/
def rectCoords (led : LED) (min_x min_y : Int) : List (Int × Int) :=
  (List.range led.Sz.width.toNat).flatMap fun (x : Nat) =>
    (List.range led.Sz.height.toNat).map fun (y : Nat) =>
      (led.Pos.x + (x : Int) - min_x, led.Pos.y + (y : Int) - min_y)

/-- The scan loop body of `calculate_avg_colors`, iterated over a coordinate
list: a coordinate outside `[0, max_x) x [0, max_y)` is skipped (`continue`),
otherwise the pixel is read (`get_pixel`, which can panic) and its first three
channels and the count are accumulated with `u32` wrapping arithmetic. -/
def scanCoords (img : RgbaImage) (max_x max_y : Int) :
    List (Int × Int) → ScanAcc → Option ScanAcc
  | [], acc => some acc
  | c :: cs, acc =>
    if c.1 < 0 ∨ c.2 < 0 ∨ c.1 ≥ max_x ∨ c.2 ≥ max_y then
      scanCoords img max_x max_y cs acc
    else
      match img.get_pixel c.1.toNat c.2.toNat with
      | none => none
      | some p =>
        scanCoords img max_x max_y cs
          ⟨u32wrap (acc.r_sum + p.r), u32wrap (acc.g_sum + p.g),
           u32wrap (acc.b_sum + p.b), u32wrap (acc.count + 1)⟩

/-- The final channel conversion `((sum / count) as f32) as u8` of
`calculate_avg_colors`: `u32 -> f32` is exact on `[0, 255]` and the
float-to-integer cast saturates, so on the possible quotients the composite
is exactly `min (sum / count) 255`. -/
def channelOut (sum count : Nat) : Nat := min (sum / count) 255

/-- The per-LED body of the `par_iter().map(...)` in `calculate_avg_colors`:
scan the zone rectangle, then divide each channel sum by the count, or return
black when the count is zero. -/
def avgColorOfLed (img : RgbaImage) (min_x min_y max_x max_y : Int)
    (led : LED) : Option Color :=
  match scanCoords img max_x max_y (rectCoords led min_x min_y) ⟨0, 0, 0, 0⟩ with
  | none => none
  | some acc =>
    if acc.count ≠ 0 then
      some ⟨led.index, channelOut acc.r_sum acc.count,
            channelOut acc.g_sum acc.count, channelOut acc.b_sum acc.count⟩
    else
      some ⟨led.index, 0, 0, 0⟩

/-- `calculate_avg_colors`: one `Color` per LED of `leds_array`, in list
order (`par_iter().map().collect()` preserves order); a panic in any zone
scan is a panic of the whole call. -/
def calculate_avg_colors (img : RgbaImage) (min_x min_y max_x max_y : Int) :
    List LED → Option (List Color)
  | [] => some []
  | led :: leds =>
    match avgColorOfLed img min_x min_y max_x max_y led with
    | none => none
    | some c =>
      match calculate_avg_colors img min_x min_y max_x max_y leds with
      | none => none
      | some cs => some (c :: cs)

example :
    calculate_avg_colors
      ⟨4, 4, fun _ _ => ⟨10, 20, 30, 255⟩⟩ 0 0 4 4
      [⟨3, true, ⟨1, 1⟩, ⟨2, 2⟩, 2, 1, 1⟩] =
    some [⟨3, 10, 20, 30⟩] := by decide

/-- `hardware_interaction::SlimMonitorInfo` (i32 fields). -/
structure SlimMonitorInfo where
  pos_x : Int
  pos_y : Int
  width : Int
  height : Int
deriving DecidableEq

/-- `hardware_interaction::FrameData`: the raw packed pixel byte buffer. -/
structure FrameData where
  data : List Nat
deriving DecidableEq

/-- One `copy_nonoverlapping` row copy of `combine_screens`, as a canvas
update: bytes `[destStart, destStart + len)` of the flat canvas receive
bytes `[srcStart, srcStart + len)` of the source buffer.  (Whether those
ranges are in bounds is checked by the caller; this is the effect of an
in-bounds copy.) -/
def rowCopy (c : Nat → Nat) (data : List Nat) (srcStart destStart len : Nat) :
    Nat → Nat := fun j =>
  if destStart ≤ j ∧ j < destStart + len then data.getD (srcStart + (j - destStart)) 0
  else c j

/-- The `for y in 0..img_height` row-copy loop of `combine_screens` over one
monitor.  Per row: `src_start = y * img_width * 4`, the copy length is
`img_width * 4` (both `u32` products, wrapping), and
`dest_start = (y_offset + y) * combined_monitor_width * 4 + x_offset * 4`
(`u32` arithmetic, wrapping).  The source has no clipping and no size check:
the model returns `none` (out-of-bounds memory access by
`copy_nonoverlapping`) as soon as a row's read range leaves the frame buffer
or its write range leaves the canvas buffer. -/
def blitRows (data : List Nat) (img_width cw x_offset y_offset canvasBytes : Nat) :
    List Nat → (Nat → Nat) → Option (Nat → Nat)
  | [], c => some c
  | y :: ys, c =>
    let src_start := u32wrap (y * img_width * 4)
    let len := u32wrap (img_width * 4)
    let dest_start := u32wrap ((y_offset + y) * cw * 4 + x_offset * 4)
    if src_start + len ≤ data.length ∧ dest_start + len ≤ canvasBytes then
      blitRows data img_width cw x_offset y_offset canvasBytes ys
        (rowCopy c data src_start dest_start len)
    else none

/-- The per-monitor blit of `combine_screens`:
`x_offset = (pos_x - min_x).max(0) as u32`, likewise `y_offset`; the monitor
dimensions are reinterpreted `as u32`; then every row is bulk-copied. -/
def blitMonitor (cw ch : Nat) (min_x min_y : Int) (m : SlimMonitorInfo)
    (fd : FrameData) (c : Nat → Nat) : Option (Nat → Nat) :=
  blitRows fd.data (u32cast m.width) cw (max (m.pos_x - min_x) 0).toNat
    (max (m.pos_y - min_y) 0).toNat (cw * ch * 4)
    (List.range (u32cast m.height)) c

/-- The `for (i, monitor) in value.iter().enumerate()` loop of
`combine_screens`: a monitor whose key `i` is absent from the frame-map
snapshot is skipped (`if let Some(frame_data) = ... .get(&(i as i32))`);
a present monitor is blitted. -/
def combineAux (cw ch : Nat) (min_x min_y : Int) (snapshot : Int → Option FrameData) :
    List (Nat × SlimMonitorInfo) → (Nat → Nat) → Option (Nat → Nat)
  | [], c => some c
  | (i, m) :: rest, c =>
    match snapshot (Int.ofNat i) with
    | some fd =>
      match blitMonitor cw ch min_x min_y m fd c with
      | some c2 => combineAux cw ch min_x min_y snapshot rest c2
      | none => none
    | none => combineAux cw ch min_x min_y snapshot rest c

/-- `combine_screens`: allocate the canvas with `RgbaImage::new` (all bytes
zero), then blit every monitor that has a frame in the snapshot.  The result
is the flat canvas byte buffer of `combined_monitor_width *
combined_monitor_height * 4` bytes (indices beyond that are never written and
stay zero in the model); `none` is an out-of-bounds access. -/
def combine_screens (monitors : List SlimMonitorInfo)
    (snapshot : Int → Option FrameData) (cw ch : Nat) (min_x min_y : Int) :
    Option (Nat → Nat) :=
  combineAux cw ch min_x min_y snapshot monitors.enum fun _ => 0

/-- Whether the blit of monitor `m` writes canvas byte `j`: some row
`y < img_height` has `dest_start <= j < dest_start + row length`. -/
def monitorWritesB (cw : Nat) (min_x min_y : Int) (m : SlimMonitorInfo) (j : Nat) :
    Bool :=
  (List.range (u32cast m.height)).any fun y =>
    let len := u32wrap (u32cast m.width * 4)
    let dest_start := u32wrap
      (((max (m.pos_y - min_y) 0).toNat + y) * cw * 4 + (max (m.pos_x - min_x) 0).toNat * 4)
    decide (dest_start ≤ j) && decide (j < dest_start + len)

/-- Row `y` of a blit with the given parameters stays inside both buffers. -/
def rowFits (dataLen img_width cw x_offset y_offset canvasBytes y : Nat) : Prop :=
  u32wrap (y * img_width * 4) + u32wrap (img_width * 4) ≤ dataLen ∧
  u32wrap ((y_offset + y) * cw * 4 + x_offset * 4) + u32wrap (img_width * 4) ≤ canvasBytes

/-- All rows of monitor `m` blitted from frame `fd` stay inside both the
frame buffer and the canvas buffer. -/
def monitorFits (cw ch : Nat) (min_x min_y : Int) (m : SlimMonitorInfo)
    (fd : FrameData) : Prop :=
  ∀ y < u32cast m.height,
    rowFits fd.data.length (u32cast m.width) cw (max (m.pos_x - min_x) 0).toNat
      (max (m.pos_y - min_y) 0).toNat (cw * ch * 4) y

/-- The comparator of `avg_colors.sort_by(|a, b| a.led_index.cmp(&b.led_index))`. -/
def byLedIndex (a b : Color) : Prop := a.led_index ≤ b.led_index

instance : DecidableRel byLedIndex := fun a b => Int.decLe a.led_index b.led_index

/-- `Vec::sort_by` with the `led_index` comparator: a stable sort, modelled by
insertion sort (also stable). -/
def sortColors (cs : List Color) : List Color := List.insertionSort byLedIndex cs

/-- The tick-loop tail of `process_frames_setup_map`: the extracted samples
are sorted by LED index and that sorted list is what `arduino::set_pixels`
receives. -/
def dispatchList (cs : List Color) : List Color := sortColors cs

/-- `get_monitor_info`: `Monitor::enumerate()` either fails (the `?` operator
propagates the error, modelled by `none`) or yields raw monitor handles; for
each handle `GetMonitorInfoW` either fails (that monitor is silently dropped)
or contributes one `SlimMonitorInfo`. -/
def get_monitor_info (enum : Option (List Nat))
    (getInfo : Nat → Option SlimMonitorInfo) : Option (List SlimMonitorInfo) :=
  match enum with
  | none => none
  | some ms => some (ms.filterMap getInfo)

/-- Whether startup dies: `get_monitor_info()?` aborts `main` on an
enumeration error, and `process_frames_setup_map` computes
`monitors.iter().map(|m| m.height).max().unwrap()`, which panics exactly when
the monitor list is empty. -/
def startup_aborts (enum : Option (List Nat))
    (getInfo : Nat → Option SlimMonitorInfo) : Bool :=
  match get_monitor_info enum getInfo with
  | none => true
  | some l => l.isEmpty

/-- `str::trim_start_matches("LED_")`: repeatedly strip the prefix `LED_`
from the character list for as long as it is a prefix. -/
def trimStartMatchesLED : List Char → List Char
  | 'L' :: 'E' :: 'D' :: '_' :: rest => trimStartMatchesLED rest
  | s => s

/-- Digit run of Rust integer parsing: at least one ASCII digit and nothing
else, accumulated in base 10. -/
def digitsToNat : List Char → Nat → Option Nat
  | [], acc => some acc
  | c :: cs, acc =>
    if c.isDigit then digitsToNat cs (acc * 10 + (c.toNat - 48)) else none

/-- `str::parse::<i32>()`: an optional single sign, then one or more ASCII
digits, the whole string consumed, and the value within the `i32` range
(overflow is a parse error). -/
def parseI32 (s : List Char) : Option Int :=
  match s with
  | [] => none
  | '+' :: rest =>
    match rest with
    | [] => none
    | _ =>
      match digitsToNat rest 0 with
      | none => none
      | some n => if n ≤ 2147483647 then some (Int.ofNat n) else none
  | '-' :: rest =>
    match rest with
    | [] => none
    | _ =>
      match digitsToNat rest 0 with
      | none => none
      | some n => if n ≤ 2147483648 then some (-(Int.ofNat n)) else none
  | _ =>
    match digitsToNat s 0 with
    | none => none
    | some n => if n ≤ 2147483647 then some (Int.ofNat n) else none

/-- The index given to a surviving LED by `convert_leds_to_array`:
`key.trim_start_matches("LED_").parse().unwrap_or(self.leds_array.len() as i32)`.
`self.leds_array` is the field value from before the whole conversion (the
new vector is assigned only after `collect()`), so the fallback is the
length of the previous array, constant throughout the conversion. -/
def ledIndexOfKey (oldLen : Nat) (key : List Char) : Int :=
  (parseI32 (trimStartMatchesLED key)).getD (Int.ofNat oldLen)

/-- Whether `convert_leds_to_array` drops the entry: all three coefficients
compare equal to `1.0`. -/
def allCoefsOne (v : LED) : Prop :=
  v.CoefRed = 1 ∧ v.CoefGreen = 1 ∧ v.CoefBlue = 1

instance (v : LED) : Decidable (allCoefsOne v) := by
  unfold allCoefsOne; infer_instance

/-- The surviving record built by `convert_leds_to_array` from a map entry:
every field copied, the index re-derived from the key. -/
def rebuiltLED (oldLen : Nat) (key : List Char) (v : LED) : LED :=
  ⟨ledIndexOfKey oldLen key, v.IsEnabled, v.Pos, v.Sz,
   v.CoefRed, v.CoefGreen, v.CoefBlue⟩

/-- `Config::convert_leds_to_array`: `self.leds.drain().filter_map(...)`
over the map entries (`HashMap` iteration order is arbitrary; the entry list
stands for one such order).  An entry whose three coefficients all equal
`1.0` is dropped; any other entry is rebuilt with the parsed-or-fallback
index.  `oldLen` is the length of the `leds_array` being replaced. -/
def convert_leds_to_array (oldLen : Nat) : List (List Char × LED) → List LED
  | [] => []
  | (key, v) :: rest =>
    if allCoefsOne v then convert_leds_to_array oldLen rest
    else rebuiltLED oldLen key v :: convert_leds_to_array oldLen rest

example : parseI32 (trimStartMatchesLED "LED_17".toList) = some 17 := by decide
example : parseI32 (trimStartMatchesLED "LED_x".toList) = none := by decide

/-- The bound test of the scan loop, as the predicate of the kept
coordinates: inside `[0, max_x) x [0, max_y)`. -/
def inDeclaredB (max_x max_y : Int) (c : Int × Int) : Bool :=
  !decide (c.1 < 0 ∨ c.2 < 0 ∨ c.1 ≥ max_x ∨ c.2 ≥ max_y)

/-- Pure accumulation over a coordinate list: the bodies of the scan loop
with neither the bound test nor the `get_pixel` bound assertion. -/
def accumPixels (img : RgbaImage) : List (Int × Int) → ScanAcc → ScanAcc
  | [], acc => acc
  | c :: cs, acc =>
    accumPixels img cs
      ⟨u32wrap (acc.r_sum + (img.pix c.1.toNat c.2.toNat).r),
       u32wrap (acc.g_sum + (img.pix c.1.toNat c.2.toNat).g),
       u32wrap (acc.b_sum + (img.pix c.1.toNat c.2.toNat).b),
       u32wrap (acc.count + 1)⟩

theorem scanCoords_filter (img : RgbaImage) (mx my : Int) :
    ∀ (cs : List (Int × Int)) (acc : ScanAcc),
      scanCoords img mx my cs acc =
        scanCoords img mx my (cs.filter (inDeclaredB mx my)) acc := by
  intro cs
  induction cs with
  | nil => intro acc; rfl
  | cons c cs ih =>
    intro acc
    by_cases h : c.1 < 0 ∨ c.2 < 0 ∨ c.1 ≥ mx ∨ c.2 ≥ my
    · have hb : inDeclaredB mx my c = false := by
        unfold inDeclaredB; rw [decide_eq_true h]; rfl
      rw [List.filter_cons_of_neg (by simp [hb])]
      simp only [scanCoords]
      rw [if_pos h]
      exact ih acc
    · have hb : inDeclaredB mx my c = true := by
        unfold inDeclaredB; rw [decide_eq_false h]; rfl
      rw [List.filter_cons_of_pos (by simp [hb])]
      simp only [scanCoords]
      rw [if_neg h, if_neg h]
      cases hp : img.get_pixel c.1.toNat c.2.toNat with
      | none => rfl
      | some p => exact ih _

theorem scanCoords_isSome (img : RgbaImage) (mx my : Int)
    (hw : mx ≤ (img.width : Int)) (hh : my ≤ (img.height : Int)) :
    ∀ (cs : List (Int × Int)) (acc : ScanAcc),
      (scanCoords img mx my cs acc).isSome := by
  intro cs
  induction cs with
  | nil => intro acc; rfl
  | cons c cs ih =>
    intro acc
    simp only [scanCoords]
    by_cases h : c.1 < 0 ∨ c.2 < 0 ∨ c.1 ≥ mx ∨ c.2 ≥ my
    · rw [if_pos h]; exact ih acc
    · rw [if_neg h]
      push_neg at h
      obtain ⟨h1, h2, h3, h4⟩ := h
      have hx : c.1.toNat < img.width := by omega
      have hy : c.2.toNat < img.height := by omega
      have hp : img.get_pixel c.1.toNat c.2.toNat = some (img.pix c.1.toNat c.2.toNat) := by
        simp [RgbaImage.get_pixel, hx, hy]
      rw [hp]
      exact ih _

theorem scanCoords_eq_accumPixels (img : RgbaImage) (mx my : Int) :
    ∀ (cs : List (Int × Int)) (acc : ScanAcc),
      (∀ c ∈ cs, 0 ≤ c.1 ∧ 0 ≤ c.2 ∧ c.1 < mx ∧ c.2 < my ∧
        c.1.toNat < img.width ∧ c.2.toNat < img.height) →
      scanCoords img mx my cs acc = some (accumPixels img cs acc) := by
  intro cs
  induction cs with
  | nil => intro acc _; rfl
  | cons c cs ih =>
    intro acc hmem
    obtain ⟨h1, h2, h3, h4, hx, hy⟩ := hmem c (List.mem_cons_self c cs)
    simp only [scanCoords, accumPixels]
    rw [if_neg (by omega)]
    have hp : img.get_pixel c.1.toNat c.2.toNat = some (img.pix c.1.toNat c.2.toNat) := by
      simp [RgbaImage.get_pixel, hx, hy]
    rw [hp]
    exact ih _ fun d hd => hmem d (List.mem_cons_of_mem c hd)

theorem accumPixels_count (img : RgbaImage) :
    ∀ (cs : List (Int × Int)) (acc : ScanAcc), acc.count < 4294967296 →
      (accumPixels img cs acc).count = u32wrap (acc.count + cs.length) := by
  intro cs
  induction cs with
  | nil =>
    intro acc hacc
    show acc.count = u32wrap (acc.count + 0)
    unfold u32wrap
    omega
  | cons c cs ih =>
    intro acc hacc
    simp only [accumPixels]
    rw [ih _ (Nat.mod_lt _ (by norm_num))]
    unfold u32wrap
    rw [Nat.mod_add_mod]
    simp only [List.length_cons]
    omega

/-- On a uniform image every accumulated channel sum is the pixel value times
the number of visited coordinates, wrapped. -/
theorem accumPixels_uniform (img : RgbaImage) (v : Pixel)
    (hpix : ∀ x y, img.pix x y = v) :
    ∀ (cs : List (Int × Int)) (acc : ScanAcc),
      acc.r_sum < 4294967296 → acc.g_sum < 4294967296 → acc.b_sum < 4294967296 →
      (accumPixels img cs acc).r_sum = u32wrap (acc.r_sum + v.r * cs.length) ∧
      (accumPixels img cs acc).g_sum = u32wrap (acc.g_sum + v.g * cs.length) ∧
      (accumPixels img cs acc).b_sum = u32wrap (acc.b_sum + v.b * cs.length) := by
  intro cs
  induction cs with
  | nil =>
    intro acc hr hg hb
    refine ⟨?_, ?_, ?_⟩ <;> (unfold u32wrap; simp only [accumPixels, List.length_nil]; omega)
  | cons c cs ih =>
    intro acc hr hg hb
    simp only [accumPixels, hpix]
    obtain ⟨er, eg, eb⟩ := ih
      ⟨u32wrap (acc.r_sum + v.r), u32wrap (acc.g_sum + v.g),
       u32wrap (acc.b_sum + v.b), u32wrap (acc.count + 1)⟩
      (Nat.mod_lt _ (by norm_num)) (Nat.mod_lt _ (by norm_num))
      (Nat.mod_lt _ (by norm_num))
    refine ⟨?_, ?_, ?_⟩
    · rw [er]; unfold u32wrap; rw [Nat.mod_add_mod]; simp only [List.length_cons]; ring_nf
    · rw [eg]; unfold u32wrap; rw [Nat.mod_add_mod]; simp only [List.length_cons]; ring_nf
    · rw [eb]; unfold u32wrap; rw [Nat.mod_add_mod]; simp only [List.length_cons]; ring_nf

theorem flatMapRect_length {α : Type} (m : Nat) :
    ∀ (n : Nat) (f : Nat → Nat → α),
      ((List.range n).flatMap fun x => (List.range m).map (f x)).length = n * m := by
  intro n
  induction n with
  | zero => intro f; simp
  | succ n ih =>
    intro f
    rw [List.range_succ, List.flatMap_append, List.length_append, ih]
    simp [List.length_map, List.length_range, Nat.succ_mul]

theorem rectCoords_length (led : LED) (min_x min_y : Int) :
    (rectCoords led min_x min_y).length =
      led.Sz.width.toNat * led.Sz.height.toNat := by
  unfold rectCoords
  exact flatMapRect_length _ _ _

theorem rectCoords_forall (led : LED) (min_x min_y mx my : Int)
    (hx0 : 0 ≤ led.Pos.x - min_x) (hx1 : led.Pos.x - min_x + led.Sz.width ≤ mx)
    (hy0 : 0 ≤ led.Pos.y - min_y) (hy1 : led.Pos.y - min_y + led.Sz.height ≤ my) :
    ∀ c ∈ rectCoords led min_x min_y, 0 ≤ c.1 ∧ 0 ≤ c.2 ∧ c.1 < mx ∧ c.2 < my := by
  intro c hc
  unfold rectCoords at hc
  obtain ⟨x, hx, hc2⟩ := List.mem_flatMap.mp hc
  obtain ⟨y, hy, rfl⟩ := List.mem_map.mp hc2
  rw [List.mem_range] at hx hy
  refine ⟨?_, ?_, ?_, ?_⟩ <;> (dsimp only; omega)

theorem avgColorOfLed_led_index (img : RgbaImage) (min_x min_y mx my : Int)
    (led : LED) (c : Color)
    (h : avgColorOfLed img min_x min_y mx my led = some c) :
    c.led_index = led.index := by
  unfold avgColorOfLed at h
  cases hs : scanCoords img mx my (rectCoords led min_x min_y) ⟨0, 0, 0, 0⟩ with
  | none => rw [hs] at h; exact absurd h (by simp)
  | some acc =>
    rw [hs] at h
    dsimp only at h
    by_cases hc : acc.count ≠ 0
    · rw [if_pos hc] at h
      cases h; rfl
    · rw [if_neg hc] at h
      cases h; rfl

theorem avgColorOfLed_isSome (img : RgbaImage) (min_x min_y mx my : Int)
    (hw : mx ≤ (img.width : Int)) (hh : my ≤ (img.height : Int)) (led : LED) :
    (avgColorOfLed img min_x min_y mx my led).isSome := by
  unfold avgColorOfLed
  cases hs : scanCoords img mx my (rectCoords led min_x min_y) ⟨0, 0, 0, 0⟩ with
  | none =>
    have := scanCoords_isSome img mx my hw hh (rectCoords led min_x min_y) ⟨0, 0, 0, 0⟩
    rw [hs] at this
    exact absurd this (by simp)
  | some acc =>
    dsimp only
    by_cases hc : acc.count ≠ 0
    · rw [if_pos hc]; rfl
    · rw [if_neg hc]; rfl

theorem calculate_avg_colors_length (img : RgbaImage) (min_x min_y mx my : Int) :
    ∀ (leds : List LED) (cs : List Color),
      calculate_avg_colors img min_x min_y mx my leds = some cs →
      cs.length = leds.length := by
  intro leds
  induction leds with
  | nil => intro cs h; cases h; rfl
  | cons led leds ih =>
    intro cs h
    unfold calculate_avg_colors at h
    cases h1 : avgColorOfLed img min_x min_y mx my led with
    | none => rw [h1] at h; exact absurd h (by simp)
    | some c =>
      rw [h1] at h
      cases h2 : calculate_avg_colors img min_x min_y mx my leds with
      | none => rw [h2] at h; exact absurd h (by simp)
      | some cs2 =>
        rw [h2] at h
        cases h
        simp [ih cs2 h2]

theorem calculate_avg_colors_getElem (img : RgbaImage) (min_x min_y mx my : Int) :
    ∀ (leds : List LED) (cs : List Color) (k : Nat) (led : LED),
      calculate_avg_colors img min_x min_y mx my leds = some cs →
      leds[k]? = some led →
      cs[k]? = avgColorOfLed img min_x min_y mx my led := by
  intro leds
  induction leds with
  | nil => intro cs k led _ hk; simp at hk
  | cons led0 leds ih =>
    intro cs k led h hk
    unfold calculate_avg_colors at h
    cases h1 : avgColorOfLed img min_x min_y mx my led0 with
    | none => rw [h1] at h; exact absurd h (by simp)
    | some c =>
      rw [h1] at h
      cases h2 : calculate_avg_colors img min_x min_y mx my leds with
      | none => rw [h2] at h; exact absurd h (by simp)
      | some cs2 =>
        rw [h2] at h
        cases h
        cases k with
        | zero =>
          simp at hk
          subst hk
          simpa using h1.symm
        | succ k =>
          simp only [List.getElem?_cons_succ] at hk ⊢
          exact ih cs2 k led h2 hk

theorem calculate_avg_colors_isSome (img : RgbaImage) (min_x min_y mx my : Int)
    (hw : mx ≤ (img.width : Int)) (hh : my ≤ (img.height : Int)) :
    ∀ leds : List LED,
      (calculate_avg_colors img min_x min_y mx my leds).isSome := by
  intro leds
  induction leds with
  | nil => rfl
  | cons led leds ih =>
    unfold calculate_avg_colors
    cases h1 : avgColorOfLed img min_x min_y mx my led with
    | none =>
      have := avgColorOfLed_isSome img min_x min_y mx my hw hh led
      rw [h1] at this
      exact absurd this (by simp)
    | some c =>
      cases h2 : calculate_avg_colors img min_x min_y mx my leds with
      | none => rw [h2] at ih; exact absurd ih (by simp)
      | some cs2 => rfl

theorem blitRows_untouched (data : List Nat) (iw cw xo yo cb j : Nat) :
    ∀ (ys : List Nat) (c c2 : Nat → Nat),
      blitRows data iw cw xo yo cb ys c = some c2 →
      (∀ y ∈ ys, ¬(u32wrap ((yo + y) * cw * 4 + xo * 4) ≤ j ∧
        j < u32wrap ((yo + y) * cw * 4 + xo * 4) + u32wrap (iw * 4))) →
      c2 j = c j := by
  intro ys
  induction ys with
  | nil => intro c c2 h _; cases h; rfl
  | cons y ys ih =>
    intro c c2 h hnw
    simp only [blitRows] at h
    by_cases hfit : u32wrap (y * iw * 4) + u32wrap (iw * 4) ≤ data.length ∧
        u32wrap ((yo + y) * cw * 4 + xo * 4) + u32wrap (iw * 4) ≤ cb
    · rw [if_pos hfit] at h
      rw [ih _ _ h fun y2 hy2 => hnw y2 (List.mem_cons_of_mem y hy2)]
      unfold rowCopy
      rw [if_neg (hnw y (List.mem_cons_self y ys))]
    · rw [if_neg hfit] at h
      exact absurd h (by simp)

theorem blitMonitor_untouched (cw ch : Nat) (min_x min_y : Int)
    (m : SlimMonitorInfo) (fd : FrameData) (c c2 : Nat → Nat) (j : Nat)
    (h : blitMonitor cw ch min_x min_y m fd c = some c2)
    (hnw : monitorWritesB cw min_x min_y m j = false) : c2 j = c j := by
  unfold blitMonitor at h
  refine blitRows_untouched _ _ _ _ _ _ _ _ _ _ h ?_
  intro y hy hcontra
  unfold monitorWritesB at hnw
  rw [List.any_eq_false] at hnw
  have hn := hnw y hy
  apply hn
  simp only [Bool.and_eq_true, decide_eq_true_eq]
  exact ⟨hcontra.1, hcontra.2⟩

theorem combineAux_untouched (cw ch : Nat) (min_x min_y : Int)
    (snapshot : Int → Option FrameData) (j : Nat) :
    ∀ (l : List (Nat × SlimMonitorInfo)) (c c2 : Nat → Nat),
      combineAux cw ch min_x min_y snapshot l c = some c2 →
      (∀ p ∈ l, (snapshot (Int.ofNat p.1)).isSome →
        monitorWritesB cw min_x min_y p.2 j = false) →
      c2 j = c j := by
  intro l
  induction l with
  | nil => intro c c2 h _; cases h; rfl
  | cons p l ih =>
    intro c c2 h hnw
    obtain ⟨i, m⟩ := p
    simp only [combineAux] at h
    cases hsnap : snapshot (Int.ofNat i) with
    | none =>
      rw [hsnap] at h
      dsimp only at h
      exact ih _ _ h fun q hq => hnw q (List.mem_cons_of_mem _ hq)
    | some fd =>
      rw [hsnap] at h
      dsimp only at h
      cases hblit : blitMonitor cw ch min_x min_y m fd c with
      | none => rw [hblit] at h; exact absurd h (by simp)
      | some c3 =>
        rw [hblit] at h
        dsimp only at h
        rw [ih _ _ h fun q hq => hnw q (List.mem_cons_of_mem _ hq)]
        exact blitMonitor_untouched _ _ _ _ _ _ _ _ _ hblit
          (hnw (i, m) (List.mem_cons_self _ _) (by rw [hsnap]; rfl))

theorem blitRows_isSome_iff (data : List Nat) (iw cw xo yo cb : Nat) :
    ∀ (ys : List Nat) (c : Nat → Nat),
      (blitRows data iw cw xo yo cb ys c).isSome ↔
        ∀ y ∈ ys, rowFits data.length iw cw xo yo cb y := by
  intro ys
  induction ys with
  | nil => intro c; simp [blitRows]
  | cons y ys ih =>
    intro c
    simp only [blitRows]
    by_cases hfit : u32wrap (y * iw * 4) + u32wrap (iw * 4) ≤ data.length ∧
        u32wrap ((yo + y) * cw * 4 + xo * 4) + u32wrap (iw * 4) ≤ cb
    · rw [if_pos hfit]
      rw [ih]
      constructor
      · intro hall y2 hy2
        rcases List.mem_cons.mp hy2 with h1 | h2
        · subst h1; exact hfit
        · exact hall y2 h2
      · intro hall y2 hy2
        exact hall y2 (List.mem_cons_of_mem y hy2)
    · rw [if_neg hfit]
      simp only [Option.isSome_none, Bool.false_eq_true, false_iff]
      intro hall
      exact hfit (hall y (List.mem_cons_self y ys))

theorem blitMonitor_isSome_iff (cw ch : Nat) (min_x min_y : Int)
    (m : SlimMonitorInfo) (fd : FrameData) (c : Nat → Nat) :
    (blitMonitor cw ch min_x min_y m fd c).isSome ↔
      monitorFits cw ch min_x min_y m fd := by
  unfold blitMonitor monitorFits
  rw [blitRows_isSome_iff]
  constructor
  · intro hall y hy
    exact hall y (List.mem_range.mpr hy)
  · intro hall y hy
    exact hall y (List.mem_range.mp hy)

theorem combineAux_isSome_iff (cw ch : Nat) (min_x min_y : Int)
    (snapshot : Int → Option FrameData) :
    ∀ (l : List (Nat × SlimMonitorInfo)) (c : Nat → Nat),
      (combineAux cw ch min_x min_y snapshot l c).isSome ↔
        ∀ p ∈ l, ∀ fd, snapshot (Int.ofNat p.1) = some fd →
          monitorFits cw ch min_x min_y p.2 fd := by
  intro l
  induction l with
  | nil => intro c; simp [combineAux]
  | cons p l ih =>
    intro c
    obtain ⟨i, m⟩ := p
    simp only [combineAux]
    cases hsnap : snapshot (Int.ofNat i) with
    | none =>
      dsimp only
      rw [ih]
      constructor
      · intro hall q hq fd hfd
        rcases List.mem_cons.mp hq with h1 | h2
        · subst h1; rw [hsnap] at hfd; exact absurd hfd (by simp)
        · exact hall q h2 fd hfd
      · intro hall q hq fd hfd
        exact hall q (List.mem_cons_of_mem _ hq) fd hfd
    | some fd =>
      dsimp only
      cases hblit : blitMonitor cw ch min_x min_y m fd c with
      | none =>
        dsimp only
        simp only [Option.isSome_none, Bool.false_eq_true, false_iff]
        intro hall
        have hfits := hall (i, m) (List.mem_cons_self _ _) fd hsnap
        have := (blitMonitor_isSome_iff cw ch min_x min_y m fd c).mpr hfits
        rw [hblit] at this
        exact absurd this (by simp)
      | some c3 =>
        dsimp only
        rw [ih]
        constructor
        · intro hall q hq fd2 hfd2
          rcases List.mem_cons.mp hq with h1 | h2
          · subst h1
            rw [hsnap] at hfd2
            cases hfd2
            have := (blitMonitor_isSome_iff cw ch min_x min_y m fd c).mp
              (by rw [hblit]; rfl)
            exact this
          · exact hall q h2 fd2 hfd2
        · intro hall q hq fd2 hfd2
          exact hall q (List.mem_cons_of_mem _ hq) fd2 hfd2

/-- Uniform 4x4 canvas used by witnesses. -/
def uniImg : RgbaImage := ⟨4, 4, fun _ _ => ⟨9, 8, 7, 255⟩⟩

/-- Non-uniform 3x3 canvas used by witnesses. -/
def varImg : RgbaImage := ⟨3, 3, fun x y => ⟨x + y, 2 * x, 3 * y, 255⟩⟩

/-- All-black 4x4 canvas used by witnesses. -/
def zeroImg : RgbaImage := ⟨4, 4, fun _ _ => ⟨0, 0, 0, 0⟩⟩

/-- C1 (counterexample).  Two 3x3 canvases that agree on every perimeter
pixel of the zone rectangle `(0,0) 3x3` and differ only at the interior
pixel `(1,1)` produce different extraction results, so the interior does
contribute to the accumulated sums and count: with the interior pixel at
255 the average is `255 / 9 = 28`, with it at 0 the average is 0. -/
theorem C1_counterexample_interior_pixel_changes_result :
    avgColorOfLed
        ⟨3, 3, fun x y => if x = 1 ∧ y = 1 then ⟨255, 255, 255, 255⟩ else ⟨0, 0, 0, 0⟩⟩
        0 0 3 3 ⟨0, true, ⟨0, 0⟩, ⟨3, 3⟩, 2, 1, 1⟩ = some ⟨0, 28, 28, 28⟩ ∧
    avgColorOfLed ⟨3, 3, fun _ _ => ⟨0, 0, 0, 0⟩⟩
        0 0 3 3 ⟨0, true, ⟨0, 0⟩, ⟨3, 3⟩, 2, 1, 1⟩ = some ⟨0, 0, 0, 0⟩ := by
  constructor
  · decide
  · decide

/-- C1 (amended).  For an in-bounds zone, `calculate_avg_colors` accumulates
every pixel of the full `width x height` rectangle — interior included, not
only the perimeter: the scan equals the unconditional accumulation over all
rectangle coordinates, its count is the full area `width * height`, and each
output channel is that full-rectangle sum divided by the full count. -/
theorem C1_theorem_full_rect_accumulation :
    ∀ (img : RgbaImage) (min_x min_y mx my : Int) (led : LED),
      mx ≤ (img.width : Int) → my ≤ (img.height : Int) →
      0 < led.Sz.width → 0 < led.Sz.height →
      led.Sz.width.toNat * led.Sz.height.toNat < 4294967296 →
      0 ≤ led.Pos.x - min_x → led.Pos.x - min_x + led.Sz.width ≤ mx →
      0 ≤ led.Pos.y - min_y → led.Pos.y - min_y + led.Sz.height ≤ my →
      (accumPixels img (rectCoords led min_x min_y) ⟨0, 0, 0, 0⟩).count =
        led.Sz.width.toNat * led.Sz.height.toNat ∧
      avgColorOfLed img min_x min_y mx my led =
        some ⟨led.index,
          channelOut (accumPixels img (rectCoords led min_x min_y) ⟨0, 0, 0, 0⟩).r_sum
            (led.Sz.width.toNat * led.Sz.height.toNat),
          channelOut (accumPixels img (rectCoords led min_x min_y) ⟨0, 0, 0, 0⟩).g_sum
            (led.Sz.width.toNat * led.Sz.height.toNat),
          channelOut (accumPixels img (rectCoords led min_x min_y) ⟨0, 0, 0, 0⟩).b_sum
            (led.Sz.width.toNat * led.Sz.height.toNat)⟩ := by
  intro img min_x min_y mx my led hw hh hwpos hhpos harea hx0 hx1 hy0 hy1
  have hbounds := rectCoords_forall led min_x min_y mx my hx0 hx1 hy0 hy1
  have hboundsfull : ∀ c ∈ rectCoords led min_x min_y,
      0 ≤ c.1 ∧ 0 ≤ c.2 ∧ c.1 < mx ∧ c.2 < my ∧
        c.1.toNat < img.width ∧ c.2.toNat < img.height := by
    intro c hc
    obtain ⟨h1, h2, h3, h4⟩ := hbounds c hc
    exact ⟨h1, h2, h3, h4, by omega, by omega⟩
  have hcount : (accumPixels img (rectCoords led min_x min_y) ⟨0, 0, 0, 0⟩).count =
      led.Sz.width.toNat * led.Sz.height.toNat := by
    rw [accumPixels_count img _ _ (by norm_num), rectCoords_length]
    dsimp only
    unfold u32wrap
    omega
  refine ⟨hcount, ?_⟩
  unfold avgColorOfLed
  rw [scanCoords_eq_accumPixels img mx my _ _ hboundsfull]
  dsimp only
  have hnpos : led.Sz.width.toNat * led.Sz.height.toNat ≠ 0 := by
    have : 0 < led.Sz.width.toNat := by omega
    have : 0 < led.Sz.height.toNat := by omega
    positivity
  rw [if_pos (by rw [hcount]; exact hnpos), hcount]

theorem C1_witness :
    (0 : Int) < 2 ∧
      (accumPixels varImg (rectCoords ⟨2, true, ⟨0, 0⟩, ⟨2, 2⟩, 2, 1, 1⟩ 0 0)
        ⟨0, 0, 0, 0⟩).count =
      (⟨2, true, ⟨0, 0⟩, ⟨2, 2⟩, 2, 1, 1⟩ : LED).Sz.width.toNat *
        (⟨2, true, ⟨0, 0⟩, ⟨2, 2⟩, 2, 1, 1⟩ : LED).Sz.height.toNat :=
  ⟨by decide,
    (C1_theorem_full_rect_accumulation varImg 0 0 3 3 ⟨2, true, ⟨0, 0⟩, ⟨2, 2⟩, 2, 1, 1⟩
      (by decide) (by decide) (by decide) (by decide) (by decide)
      (by decide) (by decide) (by decide) (by decide)).1⟩

/-- C2 (counterexample).  A single zone with `IsEnabled = false` still
yields one `ColorSample`: the extraction never consults the enabled flag,
so the sample count is 1 while the enabled-zone count is 0. -/
theorem C2_counterexample_disabled_zone_still_sampled :
    calculate_avg_colors ⟨4, 4, fun _ _ => ⟨1, 2, 3, 255⟩⟩ 0 0 4 4
        [⟨7, false, ⟨0, 0⟩, ⟨2, 2⟩, 2, 1, 1⟩] = some [⟨7, 1, 2, 3⟩] ∧
    ([⟨7, false, ⟨0, 0⟩, ⟨2, 2⟩, 2, 1, 1⟩] : List LED).filter
        (fun l => l.IsEnabled) = [] := by
  constructor
  · decide
  · decide

/-- C2 (amended).  Extraction produces exactly one ColorSample per zone of
the configured list, enabled or not: when it returns at all, the sample list
has the same length as the LED list and the k-th sample carries the k-th
zone's index. -/
theorem C2_theorem_one_sample_per_listed_zone :
    ∀ (img : RgbaImage) (min_x min_y mx my : Int) (leds : List LED) (cs : List Color),
      calculate_avg_colors img min_x min_y mx my leds = some cs →
      cs.length = leds.length ∧
      ∀ (k : Nat) (led : LED), leds[k]? = some led →
        ∃ c, cs[k]? = some c ∧ c.led_index = led.index := by
  intro img a b mx my leds cs h
  refine ⟨calculate_avg_colors_length img a b mx my leds cs h, ?_⟩
  intro k led hk
  have hel := calculate_avg_colors_getElem img a b mx my leds cs k led h hk
  cases havg : avgColorOfLed img a b mx my led with
  | none =>
    rw [havg] at hel
    have hlen := calculate_avg_colors_length img a b mx my leds cs h
    have hk2 : ¬ leds.length ≤ k := by
      intro hge
      rw [List.getElem?_eq_none hge] at hk
      exact absurd hk (by simp)
    have hc2 : cs.length ≤ k := List.getElem?_eq_none_iff.mp hel
    omega
  | some c =>
    rw [havg] at hel
    exact ⟨c, hel, avgColorOfLed_led_index img a b mx my led c havg⟩

theorem C2_witness :
    calculate_avg_colors uniImg 0 0 4 4 [⟨5, false, ⟨0, 0⟩, ⟨2, 2⟩, 2, 1, 1⟩] =
        some [⟨5, 9, 8, 7⟩] ∧
      ([⟨5, 9, 8, 7⟩] : List Color).length =
        ([⟨5, false, ⟨0, 0⟩, ⟨2, 2⟩, 2, 1, 1⟩] : List LED).length :=
  ⟨by decide,
    (C2_theorem_one_sample_per_listed_zone uniImg 0 0 4 4
      [⟨5, false, ⟨0, 0⟩, ⟨2, 2⟩, 2, 1, 1⟩] [⟨5, 9, 8, 7⟩] (by decide)).1⟩

/-- C4 (counterexample).  A zone of size 0 x 0 lies (vacuously) fully inside
the declared bounds of a canvas uniformly filled with (9, 8, 7), yet the
extracted sample is black, not (9, 8, 7): with no pixels the count is zero
and the `else` branch returns RGB(0,0,0).  So the claim does not hold for
every rectangle size. -/
theorem C4_counterexample_zero_size_zone :
    avgColorOfLed uniImg 0 0 4 4 ⟨5, true, ⟨1, 1⟩, ⟨0, 0⟩, 2, 1, 1⟩ =
        some ⟨5, 0, 0, 0⟩ ∧
      (⟨5, 0, 0, 0⟩ : Color) ≠ ⟨5, 9, 8, 7⟩ := by
  constructor
  · decide
  · decide

/-- C4 (amended).  For a canvas uniformly filled with a color whose channels
are bytes, every zone with positive width and height that lies fully inside
the declared bounds (themselves covered by the canvas), and whose area is at
most 16843009 pixels (so the u32 channel sums cannot wrap), extracts exactly
the fill color: each channel sum is value * count and the integer quotient by
the count restores the value, at any position and any such size. -/
theorem C4_theorem_uniform_canvas_average :
    ∀ (img : RgbaImage) (v : Pixel) (min_x min_y mx my : Int) (led : LED),
      (∀ x y, img.pix x y = v) →
      v.r ≤ 255 → v.g ≤ 255 → v.b ≤ 255 →
      mx ≤ (img.width : Int) → my ≤ (img.height : Int) →
      0 < led.Sz.width → 0 < led.Sz.height →
      led.Sz.width.toNat * led.Sz.height.toNat ≤ 16843009 →
      0 ≤ led.Pos.x - min_x → led.Pos.x - min_x + led.Sz.width ≤ mx →
      0 ≤ led.Pos.y - min_y → led.Pos.y - min_y + led.Sz.height ≤ my →
      avgColorOfLed img min_x min_y mx my led = some ⟨led.index, v.r, v.g, v.b⟩ := by
  intro img v min_x min_y mx my led hpix hr hg hb hw hh hwpos hhpos harea hx0 hx1 hy0 hy1
  have hbounds := rectCoords_forall led min_x min_y mx my hx0 hx1 hy0 hy1
  have hboundsfull : ∀ c ∈ rectCoords led min_x min_y,
      0 ≤ c.1 ∧ 0 ≤ c.2 ∧ c.1 < mx ∧ c.2 < my ∧
        c.1.toNat < img.width ∧ c.2.toNat < img.height := by
    intro c hc
    obtain ⟨h1, h2, h3, h4⟩ := hbounds c hc
    exact ⟨h1, h2, h3, h4, by omega, by omega⟩
  have hcount : (accumPixels img (rectCoords led min_x min_y) ⟨0, 0, 0, 0⟩).count =
      led.Sz.width.toNat * led.Sz.height.toNat := by
    rw [accumPixels_count img _ _ (by norm_num), rectCoords_length]
    dsimp only
    unfold u32wrap
    omega
  obtain ⟨er, eg, eb⟩ := accumPixels_uniform img v hpix (rectCoords led min_x min_y)
    ⟨0, 0, 0, 0⟩ (by norm_num) (by norm_num) (by norm_num)
  rw [rectCoords_length] at er eg eb
  have hnpos : 0 < led.Sz.width.toNat * led.Sz.height.toNat := by
    have h1 : 0 < led.Sz.width.toNat := by omega
    have h2 : 0 < led.Sz.height.toNat := by omega
    positivity
  have hchan : ∀ w : Nat, w ≤ 255 →
      channelOut (u32wrap (0 + w * (led.Sz.width.toNat * led.Sz.height.toNat)))
        (led.Sz.width.toNat * led.Sz.height.toNat) = w := by
    intro w hwle
    have hle : w * (led.Sz.width.toNat * led.Sz.height.toNat) ≤ 255 * 16843009 :=
      Nat.mul_le_mul hwle harea
    have hwrap : u32wrap (0 + w * (led.Sz.width.toNat * led.Sz.height.toNat)) =
        w * (led.Sz.width.toNat * led.Sz.height.toNat) := by
      unfold u32wrap
      omega
    rw [hwrap]
    unfold channelOut
    rw [Nat.mul_div_cancel _ hnpos]
    omega
  unfold avgColorOfLed
  rw [scanCoords_eq_accumPixels img mx my _ _ hboundsfull]
  dsimp only
  rw [if_pos (by rw [hcount]; omega)]
  rw [hcount, er, eg, eb, hchan v.r hr, hchan v.g hg, hchan v.b hb]

theorem C4_witness :
    (0 : Int) < 2 ∧
      avgColorOfLed uniImg 0 0 4 4 ⟨5, true, ⟨1, 1⟩, ⟨2, 2⟩, 2, 1, 1⟩ =
        some ⟨5, 9, 8, 7⟩ :=
  ⟨by decide,
    C4_theorem_uniform_canvas_average uniImg ⟨9, 8, 7, 255⟩ 0 0 4 4
      ⟨5, true, ⟨1, 1⟩, ⟨2, 2⟩, 2, 1, 1⟩ (fun _ _ => rfl) (by decide) (by decide)
      (by decide) (by decide) (by decide) (by decide) (by decide) (by decide)
      (by decide) (by decide) (by decide) (by decide)⟩

/-- C5.  First conjunct: the scan of any coordinate list equals the scan of
only its coordinates inside the declared bounds — an out-of-bounds
coordinate is skipped entirely, contributing neither to any channel sum nor
to the count (no clamping, no zero substitution).  Second conjunct: a zone
whose whole rectangle translates out of bounds (every coordinate outside)
yields the sample RGB(0,0,0) with the zone's index, and no panic (`some`,
never `none`). -/
theorem C5_theorem_out_of_bounds_skipped_and_black :
    ∀ (img : RgbaImage) (min_x min_y mx my : Int) (led : LED),
      (∀ (cs : List (Int × Int)) (acc : ScanAcc),
        scanCoords img mx my cs acc =
          scanCoords img mx my (cs.filter (inDeclaredB mx my)) acc) ∧
      ((∀ c ∈ rectCoords led min_x min_y, inDeclaredB mx my c = false) →
        avgColorOfLed img min_x min_y mx my led = some ⟨led.index, 0, 0, 0⟩) := by
  intro img min_x min_y mx my led
  refine ⟨scanCoords_filter img mx my, ?_⟩
  intro hall
  unfold avgColorOfLed
  rw [scanCoords_filter img mx my]
  have hnil : (rectCoords led min_x min_y).filter (inDeclaredB mx my) = [] := by
    rw [List.filter_eq_nil_iff]
    intro a ha
    simp [hall a ha]
  rw [hnil]
  rfl

theorem C5_witness :
    (∀ c ∈ rectCoords ⟨7, true, ⟨10, 10⟩, ⟨2, 2⟩, 2, 1, 1⟩ 0 0,
        inDeclaredB 4 4 c = false) ∧
      avgColorOfLed zeroImg 0 0 4 4 ⟨7, true, ⟨10, 10⟩, ⟨2, 2⟩, 2, 1, 1⟩ =
        some ⟨7, 0, 0, 0⟩ :=
  ⟨by decide,
    (C5_theorem_out_of_bounds_skipped_and_black zeroImg 0 0 4 4
      ⟨7, true, ⟨10, 10⟩, ⟨2, 2⟩, 2, 1, 1⟩).2 (by decide)⟩

/-- C9.  First conjunct: whenever the declared bounds are covered by the
image (`max_x <= width` and `max_y <= height`), every `get_pixel` access of
the scan is in range and extraction is total (`isSome`), for every zone
list, position and size.  Second conjunct: if the precondition is violated,
a coordinate inside the declared bounds can lie outside the image and the
scan panics (`none`): declared bounds 2x2 over a 1x1 image, zone pixel at
(1,1). -/
theorem C9_theorem_get_pixel_total_under_bounds :
    (∀ (img : RgbaImage) (min_x min_y mx my : Int) (leds : List LED),
      mx ≤ (img.width : Int) → my ≤ (img.height : Int) →
      (calculate_avg_colors img min_x min_y mx my leds).isSome) ∧
    calculate_avg_colors ⟨1, 1, fun _ _ => ⟨0, 0, 0, 0⟩⟩ 0 0 2 2
      [⟨0, true, ⟨1, 1⟩, ⟨1, 1⟩, 2, 1, 1⟩] = none := by
  constructor
  · intro img a b mx my leds hw hh
    exact calculate_avg_colors_isSome img a b mx my hw hh leds
  · decide

theorem C9_witness :
    ((2 : Int) ≤ ((zeroImg.width : Nat) : Int)) ∧
      (calculate_avg_colors zeroImg 0 0 2 2
        [⟨1, true, ⟨0, 0⟩, ⟨2, 2⟩, 2, 1, 1⟩]).isSome = true :=
  ⟨by decide,
    C9_theorem_get_pixel_total_under_bounds.1 zeroImg 0 0 2 2
      [⟨1, true, ⟨0, 0⟩, ⟨2, 2⟩, 2, 1, 1⟩] (by decide) (by decide)⟩

/-- C3 (counterexample).  A 2x1 monitor at (1,1) on a 2x2 canvas, with a
frame buffer of exactly its own 8 bytes: its single row fits the source
buffer but its destination range is bytes [12, 20) of a 16-byte canvas, so
the unchecked `copy_nonoverlapping` writes out of bounds — the blit is not
clipped and not skipped. -/
theorem C3_counterexample_out_of_bounds_blit :
    combine_screens [⟨1, 1, 2, 1⟩]
      (fun _ => some ⟨[10, 20, 30, 40, 50, 60, 70, 80]⟩) 2 2 0 0 = none := rfl

/-- C3 (amended).  `combine_screens` performs no clipping and no buffer-size
check: the tick is free of out-of-bounds accesses exactly when every monitor
with a frame in the snapshot fits — each of its source rows lies inside its
frame buffer and each destination row inside the canvas buffer.  Otherwise
the raw row copy goes out of bounds (`none`); no per-monitor skip exists
(the only skip is a frame absent from the snapshot). -/
theorem C3_theorem_blit_safe_iff_all_monitors_fit :
    ∀ (monitors : List SlimMonitorInfo) (snapshot : Int → Option FrameData)
      (cw ch : Nat) (min_x min_y : Int),
      (combine_screens monitors snapshot cw ch min_x min_y).isSome ↔
        ∀ p ∈ monitors.enum, ∀ fd, snapshot (Int.ofNat p.1) = some fd →
          monitorFits cw ch min_x min_y p.2 fd := by
  intro monitors snapshot cw ch min_x min_y
  exact combineAux_isSome_iff cw ch min_x min_y snapshot monitors.enum _

instance (dl iw cw xo yo cb y : Nat) : Decidable (rowFits dl iw cw xo yo cb y) := by
  unfold rowFits; infer_instance

instance (cw ch : Nat) (mnx mny : Int) (m : SlimMonitorInfo) (fd : FrameData) :
    Decidable (monitorFits cw ch mnx mny m fd) := by
  unfold monitorFits; infer_instance

theorem C3_witness :
    (combine_screens [⟨0, 0, 1, 1⟩] (fun _ => some ⟨[1, 2, 3, 4]⟩)
      1 1 0 0).isSome = true := by
  refine (C3_theorem_blit_safe_iff_all_monitors_fit [⟨0, 0, 1, 1⟩]
    (fun _ => some ⟨[1, 2, 3, 4]⟩) 1 1 0 0).mpr ?_
  intro p hp fd hfd
  have hp2 : p = (0, ⟨0, 0, 1, 1⟩) := by simpa using hp
  subst hp2
  cases hfd
  decide

/-- C7.  The canvas starts as the all-zero buffer of `RgbaImage::new` and a
byte that no snapshot-present monitor's blit writes is still zero in the
output; in particular a monitor with no frame in the snapshot contributes no
writes at all, so its region holds no content carried over from anywhere —
the canvas is rebuilt from scratch from the current snapshot alone. -/
theorem C7_theorem_untouched_canvas_bytes_zero :
    ∀ (monitors : List SlimMonitorInfo) (snapshot : Int → Option FrameData)
      (cw ch : Nat) (min_x min_y : Int) (canvas : Nat → Nat) (j : Nat),
      combine_screens monitors snapshot cw ch min_x min_y = some canvas →
      (∀ p ∈ monitors.enum, (snapshot (Int.ofNat p.1)).isSome →
        monitorWritesB cw min_x min_y p.2 j = false) →
      canvas j = 0 := by
  intro monitors snapshot cw ch min_x min_y canvas j h hnw
  exact combineAux_untouched cw ch min_x min_y snapshot j monitors.enum _ canvas h hnw

theorem C7_witness :
    combine_screens [⟨0, 0, 2, 2⟩] (fun _ => none) 2 2 0 0 =
        some (fun _ => 0) ∧
      (fun _ : Nat => (0 : Nat)) 7 = 0 :=
  ⟨rfl,
    C7_theorem_untouched_canvas_bytes_zero [⟨0, 0, 2, 2⟩] (fun _ => none) 2 2 0 0
      (fun _ => 0) 7 rfl (by intro p hp hs; simp at hs)⟩

instance : IsTotal Color byLedIndex :=
  ⟨fun a b => Int.le_total a.led_index b.led_index⟩

instance : IsTrans Color byLedIndex :=
  ⟨fun _ _ _ h1 h2 => le_trans h1 h2⟩

/-- C6.  Whatever order per-zone extraction finishes in (any permutation
`cs2` of the produced samples), the dispatched list is sorted ascending by
LED index and is a permutation of the samples — `sort_by` on `led_index`
runs after extraction and before `set_pixels`. -/
theorem C6_theorem_dispatch_sorted_by_led_index :
    ∀ (cs cs2 : List Color), cs.Perm cs2 →
      ((dispatchList cs2).map Color.led_index).Sorted (· ≤ ·) ∧
        (dispatchList cs2).Perm cs := by
  intro cs cs2 hperm
  constructor
  · have hs : (dispatchList cs2).Sorted byLedIndex :=
      List.sorted_insertionSort byLedIndex cs2
    exact List.pairwise_map.mpr hs
  · exact (List.perm_insertionSort byLedIndex cs2).trans hperm.symm

theorem C6_witness :
    ([⟨2, 0, 0, 0⟩, ⟨1, 0, 0, 0⟩] : List Color).Perm
        [⟨1, 0, 0, 0⟩, ⟨2, 0, 0, 0⟩] ∧
      ((dispatchList [⟨1, 0, 0, 0⟩, ⟨2, 0, 0, 0⟩]).map Color.led_index).Sorted
        (· ≤ ·) :=
  ⟨by decide,
    (C6_theorem_dispatch_sorted_by_led_index [⟨2, 0, 0, 0⟩, ⟨1, 0, 0, 0⟩]
      [⟨1, 0, 0, 0⟩, ⟨2, 0, 0, 0⟩] (by decide)).1⟩

/-- C8 (counterexample).  `Monitor::enumerate()` succeeds and reports one
display, but `GetMonitorInfoW` fails for it, so the assembled monitor list is
empty and `map(|m| m.height).max().unwrap()` panics — startup aborts even
though the OS neither errored on the enumeration query nor reported zero
displays, refuting the claimed "if and only if". -/
theorem C8_counterexample_info_query_failure_aborts :
    startup_aborts (some [0]) (fun _ => none) = true ∧
      ¬(((some [0] : Option (List Nat)) = none) ∨ ([0] : List Nat) = []) := by
  constructor
  · rfl
  · decide

/-- C8 (amended).  Startup aborts exactly when the enumeration query errors
or the assembled monitor-info list is empty — zero displays reported, or the
per-monitor info query failed for every reported display (failed monitors
are silently dropped).  In particular zero reported displays always aborts
startup. -/
theorem C8_theorem_startup_abort_characterization :
    ∀ (enum : Option (List Nat)) (getInfo : Nat → Option SlimMonitorInfo),
      (startup_aborts enum getInfo = true ↔
        enum = none ∨ ∃ ms, enum = some ms ∧ ms.filterMap getInfo = []) ∧
      (enum = some [] → startup_aborts enum getInfo = true) := by
  intro enum getInfo
  constructor
  · cases enum with
    | none => simp [startup_aborts, get_monitor_info]
    | some ms => simp [startup_aborts, get_monitor_info, List.isEmpty_iff]
  · intro he
    subst he
    rfl

theorem C8_witness :
    (some ([] : List Nat) = some ([] : List Nat)) ∧
      startup_aborts (some []) (fun _ => some ⟨0, 0, 0, 0⟩) = true :=
  ⟨rfl,
    (C8_theorem_startup_abort_characterization (some [])
      (fun _ => some ⟨0, 0, 0, 0⟩)).2 rfl⟩

/-- C10.  `convert_leds_to_array` keeps exactly the entries with at least
one coefficient different from `1.0` (an entry with all three coefficients
equal to `1.0` is silently dropped), each kept entry rebuilt with the index
parsed from its key after stripping the `LED_` prefix; when parsing fails
the index falls back to the length of the `leds_array` being replaced (the
pre-conversion array — its length is constant during the conversion). -/
theorem C10_theorem_coef_filter_and_index_fallback :
    ∀ (oldLen : Nat) (entries : List (List Char × LED)),
      convert_leds_to_array oldLen entries =
        (entries.filter fun e => !decide (allCoefsOne e.2)).map
          (fun e => rebuiltLED oldLen e.1 e.2) ∧
      (∀ (key : List Char) (v : LED),
        parseI32 (trimStartMatchesLED key) = none →
        (rebuiltLED oldLen key v).index = Int.ofNat oldLen) := by
  intro oldLen entries
  constructor
  · induction entries with
    | nil => rfl
    | cons e rest ih =>
      obtain ⟨key, v⟩ := e
      by_cases hc : allCoefsOne v
      · simp only [convert_leds_to_array]
        rw [if_pos hc, List.filter_cons_of_neg (by simp [hc])]
        exact ih
      · simp only [convert_leds_to_array]
        rw [if_neg hc, List.filter_cons_of_pos (by simp [hc]), List.map_cons, ih]
  · intro key v hp
    unfold rebuiltLED ledIndexOfKey
    rw [hp]
    rfl

theorem C10_witness :
    parseI32 (trimStartMatchesLED "LED_x".toList) = none ∧
      (rebuiltLED 4 "LED_x".toList ⟨0, true, ⟨0, 0⟩, ⟨1, 1⟩, 2, 1, 1⟩).index =
        Int.ofNat 4 :=
  ⟨by decide,
    (C10_theorem_coef_filter_and_index_fallback 4 []).2 "LED_x".toList
      ⟨0, true, ⟨0, 0⟩, ⟨1, 1⟩, 2, 1, 1⟩ (by decide)⟩
